import Mathlib

/- Shallow embedding of the duty-roster bot sources (`main.js` and its
   sibling file carrying `numToCol`).  Grids are lists of rows of cell
   values; a cell is a string or a number, matching what the sheet
   transport and the JSON snapshot can hold.  Machine details of the
   JavaScript runtime (strict equality, truthiness, `||` / `??`
   defaulting) are modelled explicitly. -/

inductive Val where
  | vStr (s : String)
  | vNum (n : Int)
deriving DecidableEq

abbrev Grid := List (List Val)

/-- JavaScript truthiness on a cell value: `""` and `0` are falsy. -/
def falsy : Val → Bool
  | .vStr s => s = ""
  | .vNum n => n = 0

/-- `String(v)` on the values we model. -/
def jsString : Val → String
  | .vStr s => s
  | .vNum n => toString n

def isWsChar (c : Char) : Bool := c = ' ' || c = '\t' || c = '\n' || c = '\r'

def trimChars (l : List Char) : List Char :=
  ((l.dropWhile isWsChar).reverse.dropWhile isWsChar).reverse

/-- `s.trim()` restricted to the whitespace the roster data can contain. -/
def jsTrim (s : String) : String := ⟨trimChars s.toList⟩

def tokensAux : List Char → List Char → List String
  | [], acc => if acc.isEmpty then [] else [⟨acc.reverse⟩]
  | c :: cs, acc =>
    if isWsChar c then
      if acc.isEmpty then tokensAux cs [] else (⟨acc.reverse⟩ : String) :: tokensAux cs []
    else tokensAux cs (c :: acc)

/-- `s.split(/\s+/)` as the source uses it: every call site trims first,
    and in JavaScript `"".split(/\s+/)` yields `[""]`. -/
def jsSplitWs (s : String) : List String :=
  let ts := tokensAux s.toList []
  if ts.isEmpty then [""] else ts

/-- `toLowerCase` on the alphabets appearing in the sources
    (ASCII and Russian). -/
def jsToLowerChar (c : Char) : Char :=
  if 'A' ≤ c && c ≤ 'Z' then Char.ofNat (c.toNat + 32)
  else if 'А' ≤ c && c ≤ 'Я' then Char.ofNat (c.toNat + 32)
  else if c = 'Ё' then 'ё'
  else c

/-- `toUpperCase` on the same alphabets. -/
def jsToUpperChar (c : Char) : Char :=
  if 'a' ≤ c && c ≤ 'z' then Char.ofNat (c.toNat - 32)
  else if 'а' ≤ c && c ≤ 'я' then Char.ofNat (c.toNat - 32)
  else if c = 'ё' then 'Ё'
  else c

def strToLower (s : String) : String := ⟨s.toList.map jsToLowerChar⟩

def startsL : List Char → List Char → Bool
  | [], _ => true
  | _ :: _, [] => false
  | p :: ps, c :: cs => p = c && startsL ps cs

def hasSubL (pat : List Char) : List Char → Bool
  | [] => startsL pat []
  | c :: cs => startsL pat (c :: cs) || hasSubL pat cs

/-- `s.includes(pat)`. -/
def jsIncludes (s pat : String) : Bool := hasSubL pat.toList s.toList

/-- `s.startsWith(pat)`. -/
def strStarts (s pat : String) : Bool := startsL pat.toList s.toList

def joinSep (sep : String) : List String → String
  | [] => ""
  | [x] => x
  | x :: y :: xs => x ++ sep ++ joinSep sep (y :: xs)

/-- `a || b` on an optional string: `null`, `undefined` and `""` all
    fall back to the default. -/
def jsOrStr (o : Option String) (dflt : String) : String :=
  match o with
  | none => dflt
  | some s => if s = "" then dflt else s

/-- `Date.UTC(1899, 11, 30)` in milliseconds. -/
def epochBaseMs : Int := -2209161600000

/-- Civil (proleptic Gregorian) date of a day count from 1970-01-01 UTC,
    as `Date.toISOString` renders it; day counts before year -4800 are
    outside the modelled range. -/
def civilFromDays (z : Int) : Nat × Nat × Nat :=
  let zz := z + 719468
  if zz < 0 then (0, 1, 1)
  else
    let n := zz.toNat
    let era := n / 146097
    let doe := n % 146097
    let yoe := (doe - doe / 1460 + doe / 36524 - doe / 146096) / 365
    let doy := doe - (365 * yoe + yoe / 4 - yoe / 100)
    let mp := (5 * doy + 2) / 153
    let d := doy - (153 * mp + 2) / 5 + 1
    let m := if mp < 10 then mp + 3 else mp - 9
    (era * 400 + yoe + (if m ≤ 2 then 1 else 0), m, d)

def pad2 (n : Nat) : String := if n < 10 then "0" ++ toString n else toString n

def pad4 (n : Nat) : String :=
  if n < 10 then "000" ++ toString n
  else if n < 100 then "00" ++ toString n
  else if n < 1000 then "0" ++ toString n
  else toString n

/-- `YYYY-MM-DD` text for a day count since the Unix epoch. -/
def isoOfDays (z : Int) : String :=
  let c := civilFromDays z
  pad4 c.1 ++ "-" ++ pad2 c.2.1 ++ "-" ++ pad2 c.2.2

/-- Date part of `new Date(ms).toISOString()`. -/
def isoFromMs (ms : Int) : String := isoOfDays (Int.fdiv ms 86400000)

/-- `s.slice(0, 10)`. -/
def takeTen (s : String) : String := ⟨s.toList.take 10⟩

/-- `normalizeDate` from the source: falsy input returns the `null`
    sentinel, strings are cut to their first ten characters, numbers are
    day offsets added to 1899-12-30 UTC. -/
def normalizeDate (v : Val) : Option String :=
  if falsy v then none
  else
    match v with
    | .vStr s => some (takeTen s)
    | .vNum n => some (isoFromMs (epochBaseMs + n * 86400000))

structure Change where
  r : Nat
  c : Nat
  oldVal : Val
  newVal : Val
deriving DecidableEq

/-- The cell the diff reads at a position: `(sheet?.[row] || [])[col] ?? ""`. -/
def cellAt (g : Grid) (row col : Nat) : Val := (g.getD row []).getD col (.vStr "")

/-- `findChanges(oldSheet, newSheet)`: cell-by-cell strict comparison over
    the larger of the two shapes, missing rows and cells read as `""`;
    positions are stored 1-based, row-major. -/
def findChanges (oldSheet newSheet : Grid) : List Change :=
  (List.range (max oldSheet.length newSheet.length)).flatMap fun row =>
    (List.range (max (oldSheet.getD row []).length (newSheet.getD row []).length)).filterMap
      fun col =>
        if cellAt oldSheet row col ≠ cellAt newSheet row col then
          some ⟨row + 1, col + 1, cellAt oldSheet row col, cellAt newSheet row col⟩
        else none

/-- C1 counterexample: at position (1,1) the previous cell is the number 5
    and the current cell is the string "5"; both stringify to "5", so the
    claim demands no change record, yet `findChanges` (which compares with
    strict, type-sensitive equality) emits one. -/
theorem findChanges_not_stringwise :
    jsString (Val.vNum 5) = jsString (Val.vStr "5") ∧
    findChanges [[Val.vNum 5]] [[Val.vStr "5"]] ≠ [] := by
  decide

/-- C1 (amended): `findChanges` emits a change record at position
    (row, col) iff the value of the previous grid at that position differs
    from the value of the current grid under strict, type-sensitive
    equality, where missing rows and missing cells are read as the empty
    string; in particular `findChanges A A = []` for every grid `A`. -/
theorem findChanges_change_iff :
    (∀ (o n : Grid) (row col : Nat),
      (∃ ch ∈ findChanges o n, ch.r = row + 1 ∧ ch.c = col + 1) ↔
        cellAt o row col ≠ cellAt n row col) ∧
    (∀ a : Grid, findChanges a a = []) := by
  constructor
  · intro o n row col
    constructor
    · rintro ⟨ch, hmem, hr, hc⟩
      unfold findChanges at hmem
      simp only [List.mem_flatMap, List.mem_filterMap, List.mem_range] at hmem
      obtain ⟨row', _, col', _, heq⟩ := hmem
      by_cases hne : cellAt o row' col' ≠ cellAt n row' col'
      · rw [if_pos hne] at heq
        obtain rfl := Option.some.inj heq
        simp only at hr hc
        obtain rfl : row' = row := Nat.succ_injective hr
        obtain rfl : col' = col := Nat.succ_injective hc
        exact hne
      · rw [if_neg hne] at heq
        exact Option.noConfusion heq
    · intro hne
      have hrow : row < max o.length n.length := by
        by_contra h
        push_neg at h
        apply hne
        unfold cellAt
        rw [List.getD_eq_default _ _ (le_trans (le_max_left _ _) h),
          List.getD_eq_default _ _ (le_trans (le_max_right _ _) h)]
      have hcol : col < max (o.getD row []).length (n.getD row []).length := by
        by_contra h
        push_neg at h
        apply hne
        unfold cellAt
        rw [List.getD_eq_default _ _ (le_trans (le_max_left _ _) h),
          List.getD_eq_default _ _ (le_trans (le_max_right _ _) h)]
      refine ⟨⟨row + 1, col + 1, cellAt o row col, cellAt n row col⟩, ?_, rfl, rfl⟩
      unfold findChanges
      simp only [List.mem_flatMap, List.mem_filterMap, List.mem_range]
      exact ⟨row, hrow, col, hcol, by rw [if_pos hne]⟩
  · intro a
    apply List.eq_nil_iff_forall_not_mem.mpr
    intro ch hch
    unfold findChanges at hch
    simp only [List.mem_flatMap, List.mem_filterMap, List.mem_range] at hch
    obtain ⟨row, _, col, _, heq⟩ := hch
    rw [if_neg (fun h => h rfl)] at heq
    exact Option.noConfusion heq

/-- The 26 spreadsheet column letters. -/
def colDigit (m : Nat) : Char := "ABCDEFGHIJKLMNOPQRSTUVWXYZ".toList.getD m 'A'

/-- The `while` loop of `numToCol`, fuel-indexed: on `x ≥ 1` it peels
    `(x - 1) % 26` as the last letter and loops on `(x - 1) / 26`; the
    quotient is strictly smaller, so fuel `x` always suffices. -/
def colCharsAux : Nat → Nat → List Char
  | 0, _ => []
  | _ + 1, 0 => []
  | fuel + 1, x + 1 => colCharsAux fuel (x / 26) ++ [colDigit (x % 26)]

def colChars (x : Nat) : List Char := colCharsAux x x

/-- `numToCol(n)` from the source: the spreadsheet column label of the
    zero-based column index `n`. -/
def numToCol (n : Nat) : String := ⟨colChars (n + 1)⟩

/-- Modelled from the spec: the value of a column label read as a
    bijective base-26 numeral over A=1 .. Z=26 (no zero digit). -/
def bijVal (l : List Char) : Nat := l.foldl (fun acc c => acc * 26 + (c.toNat - 64)) 0

/-- Modelled from the spec: decoding a column label back to a zero-based
    column index. -/
def colIndexOfLabel (s : String) : Nat := bijVal s.toList - 1

theorem bijVal_concat (l : List Char) (c : Char) :
    bijVal (l ++ [c]) = bijVal l * 26 + (c.toNat - 64) := by
  unfold bijVal
  rw [List.foldl_append]
  rfl

theorem colDigit_val : ∀ m, m < 26 → (colDigit m).toNat - 64 = m + 1 := by decide

theorem bijVal_colCharsAux : ∀ fuel x : Nat, x ≤ fuel → bijVal (colCharsAux fuel x) = x := by
  intro fuel
  induction fuel with
  | zero =>
    intro x hx
    obtain rfl : x = 0 := Nat.le_zero.mp hx
    rfl
  | succ fuel ih =>
    intro x hx
    match x with
    | 0 => rfl
    | y + 1 =>
      rw [colCharsAux, bijVal_concat, colDigit_val _ (Nat.mod_lt _ (by omega)),
        ih (y / 26) (le_trans (Nat.div_le_self _ _) (by omega))]
      have h26 : 26 * (y / 26) + y % 26 = y := Nat.div_add_mod _ _
      omega

/-- C9: `numToCol` encodes a zero-based column index as a bijective
    base-26 label over A-Z (A for 0, Z for 25, AA for 26, no zero digit),
    and decoding that label back yields the index it came from: the
    round-trip index to label to index is the identity. -/
theorem numToCol_round_trip :
    (∀ n : Nat, bijVal (numToCol n).toList = n + 1 ∧ colIndexOfLabel (numToCol n) = n) ∧
    numToCol 0 = "A" ∧ numToCol 25 = "Z" ∧ numToCol 26 = "AA" := by
  refine ⟨fun n => ?_, by decide, by decide, by decide⟩
  have h : bijVal (numToCol n).toList = n + 1 := bijVal_colCharsAux (n + 1) (n + 1) le_rfl
  refine ⟨h, ?_⟩
  unfold colIndexOfLabel
  rw [h]
  omega

/-- The static full-name to Telegram-handle directory of the source. -/
def userMap : List (String × String) :=
  [("Асалбеков Аслан Гулбекович", "@hyposaurus"),
   ("Пугачев Егор Игоревич", "@Mrr_ZakaT"),
   ("Стрюков Артур Германович", "@latt0"),
   ("Квашилава Илья Романович", "@Hesper1d1um"),
   ("Хлопков Максим Сергеевич", "@maxindasky"),
   ("Живых Олег Григорьевич", "@zhiv0y")]

/-- `firstNameFrom(fullName)`: second whitespace token of the trimmed
    name, else the first token, else the generic fallback word. -/
def firstNameFrom (fullName : String) : String :=
  let parts := jsSplitWs (jsTrim fullName)
  if 2 ≤ parts.length then parts.getD 1 ""
  else jsOrStr (some (parts.getD 0 "")) "Сотрудник"

def isQuoteCh (c : Char) : Bool :=
  c = Char.ofNat 34 || c = Char.ofNat 39 || c = '«' || c = '»'

/-- `prettyVal(v)`: trim, strip surrounding quote and guillemet runs,
    substitute an em dash for an empty result, else sentence case. -/
def prettyVal (v : Val) : String :=
  let l := ((trimChars (jsString v).toList).dropWhile isQuoteCh).reverse.dropWhile isQuoteCh
    |>.reverse
  match l with
  | [] => "—"
  | c :: cs => ⟨jsToUpperChar c :: cs.map jsToLowerChar⟩

/-- The date label a change resolves to:
    `normalizeDate(headerDates[ch.c - 1]) || "неизвестная дата"`
    (a 1-based column 0 would read index -1, hence `undefined`). -/
def chDateKey (headerDates : List Val) (ch : Change) : String :=
  jsOrStr (if ch.c = 0 then none else (headerDates.get? (ch.c - 1)).bind normalizeDate)
    "неизвестная дата"

/-- The person a change resolves to:
    `sheet[ch.r - 1]?.[1] || "неизвестный сотрудник"`. -/
def chPerson (sheet : Grid) (ch : Change) : String :=
  match (if ch.r = 0 then none else (sheet.get? (ch.r - 1)).bind fun row => row.get? 1) with
  | none => "неизвестный сотрудник"
  | some v => if falsy v then "неизвестный сотрудник" else jsString v

/-- One rendered change line of `buildChangeMessage`. -/
def lineFor (sheet : Grid) (ch : Change) : String :=
  let person := chPerson sheet ch
  let tag :=
    match List.lookup person userMap with
    | some t => if strStarts t "@" then t else ""
    | none => ""
  firstNameFrom person ++ (if tag = "" then "" else " " ++ tag) ++
    " ( " ++ prettyVal ch.oldVal ++ " → " ++ prettyVal ch.newVal ++ " )"

/-- `(groupedByDate[date] ||= []).push(line)`: append the line under its
    date key, creating the key at the end on first sight. -/
def insertApp (acc : List (String × List String)) (k : String) (v : String) :
    List (String × List String) :=
  if acc.any fun p => p.1 = k then
    acc.map fun p => if p.1 = k then (p.1, p.2 ++ [v]) else p
  else acc ++ [(k, [v])]

/-- The `changes.forEach` grouping loop of `buildChangeMessage`: changes
    in the header region (1-based row < 3) are dropped, the rest are
    grouped by resolved date; the assoc list records the object's
    properties in creation (first-seen) order. -/
def groupedOf (changes : List Change) (sheet : Grid) : List (String × List String) :=
  changes.foldl
    (fun acc ch =>
      if ch.r < 3 then acc
      else insertApp acc (chDateKey (sheet.getD 1 []) ch) (lineFor sheet ch))
    []

/-- The numeric value of a digit-string property key. -/
def keyNumVal (s : String) : Nat :=
  s.toList.foldl (fun acc c => acc * 10 + (c.toNat - 48)) 0

/-- A canonical array-index property key (digits only, no leading zero
    except "0" itself, value below 2^32 - 1): `Object.keys` enumerates
    these before all string keys, in ascending numeric order. -/
def isArrayIndexKey (s : String) : Bool :=
  s.toList.all (fun c => c.isDigit) && s ≠ "" &&
    (s = "0" || s.toList.headD '0' ≠ '0') && keyNumVal s < 4294967295

def insertKeyByVal (k : String) : List String → List String
  | [] => [k]
  | q :: qs => if keyNumVal k < keyNumVal q then k :: q :: qs else q :: insertKeyByVal k qs

def sortKeysByVal : List String → List String
  | [] => []
  | k :: ks => insertKeyByVal k (sortKeysByVal ks)

def insertByVal (p : String × List String) :
    List (String × List String) → List (String × List String)
  | [] => [p]
  | q :: qs => if keyNumVal p.1 < keyNumVal q.1 then p :: q :: qs else q :: insertByVal p qs

def sortByVal : List (String × List String) → List (String × List String)
  | [] => []
  | p :: ps => insertByVal p (sortByVal ps)

/-- The order in which `Object.keys` (and hence the render loop
    `for (const date of Object.keys(groupedByDate))`) enumerates the
    grouping object's entries: canonical array-index keys first in
    ascending numeric order, then the remaining string keys in property
    creation order. -/
def jsEnumOrder (g : List (String × List String)) : List (String × List String) :=
  sortByVal (g.filter fun p => isArrayIndexKey p.1) ++
    g.filter fun p => !(isArrayIndexKey p.1)

/-- `buildChangeMessage(changes, sheet)`: banner, then one block per date
    in `Object.keys` enumeration order, then a final `trim()`. -/
def buildChangeMessage (changes : List Change) (sheet : Grid) : String :=
  jsTrim ((jsEnumOrder (groupedOf changes sheet)).foldl
    (fun m p => m ++ "📅 " ++ p.1 ++ ":\n" ++ joinSep "\n" p.2 ++ "\n\n")
    "📢 Обнаружены изменения в графике дежурств!\n\n")

theorem groupedOf_of_all_header (sheet : Grid) :
    ∀ (changes : List Change) (acc : List (String × List String)),
      (∀ ch ∈ changes, ch.r < 3) →
      changes.foldl
        (fun acc ch =>
          if ch.r < 3 then acc
          else insertApp acc (chDateKey (sheet.getD 1 []) ch) (lineFor sheet ch))
        acc = acc := by
  intro changes
  induction changes with
  | nil => intro acc _; rfl
  | cons c cs ih =>
    intro acc h
    rw [List.foldl_cons, if_pos (h c (List.mem_cons_self _ _))]
    exact ih acc fun ch hch => h ch (List.mem_cons_of_mem _ hch)

/-- C6 counterexample: a change list whose only change sits in the header
    region (1-based row 1) filters down to the empty set, yet the composer
    returns the non-empty banner text rather than empty output. -/
theorem buildChangeMessage_banner_not_empty :
    (([⟨1, 1, Val.vStr "x", Val.vStr "y"⟩] : List Change).filter
        fun ch => decide (¬ ch.r < 3)) = [] ∧
    buildChangeMessage [⟨1, 1, Val.vStr "x", Val.vStr "y"⟩] [] ≠ "" := by
  constructor
  · decide
  · unfold buildChangeMessage groupedOf
    rw [groupedOf_of_all_header _ _ _ (by decide)]
    decide

/-- C6 (amended): when every change lies in the header region (so the
    change set left after the row < 3 filter is empty), the composer
    returns exactly the trimmed banner line, with no date blocks — a
    non-empty string, not empty output. -/
theorem buildChangeMessage_all_header (changes : List Change) (sheet : Grid)
    (h : ∀ ch ∈ changes, ch.r < 3) :
    buildChangeMessage changes sheet = "📢 Обнаружены изменения в графике дежурств!" := by
  unfold buildChangeMessage groupedOf
  rw [groupedOf_of_all_header _ _ _ h]
  decide

/-- Witness for the amended C6 at a concrete header-region change list. -/
theorem buildChangeMessage_all_header_witness :
    buildChangeMessage [⟨2, 4, Val.vStr "x", Val.vStr "y"⟩] [] =
      "📢 Обнаружены изменения в графике дежурств!" :=
  buildChangeMessage_all_header _ _ (by decide)

/-- First-seen-order deduplication of a key list. -/
def eraseDupKeepFirst : List String → List String
  | [] => []
  | a :: as => a :: eraseDupKeepFirst (as.filter fun b => decide (b ≠ a))
termination_by l => l.length
decreasing_by
  simp only [List.length_cons]
  exact Nat.lt_succ_of_le (List.length_filter_le _ _)

theorem eraseDupKeepFirst_nil : eraseDupKeepFirst [] = [] := by
  unfold eraseDupKeepFirst
  rfl

theorem eraseDupKeepFirst_cons (a : String) (as : List String) :
    eraseDupKeepFirst (a :: as) =
      a :: eraseDupKeepFirst (as.filter fun b => decide (b ≠ a)) := by
  conv_lhs => unfold eraseDupKeepFirst

theorem mem_eraseDupKeepFirst_aux :
    ∀ (n : Nat) (l : List String), l.length ≤ n → ∀ k, k ∈ eraseDupKeepFirst l ↔ k ∈ l := by
  intro n
  induction n with
  | zero =>
    intro l hl k
    obtain rfl : l = [] := List.length_eq_zero.mp (Nat.le_zero.mp hl)
    rw [eraseDupKeepFirst_nil]
  | succ n ih =>
    intro l hl k
    match l with
    | [] => rw [eraseDupKeepFirst_nil]
    | a :: as =>
      rw [eraseDupKeepFirst_cons]
      have hlen : (as.filter fun b => decide (b ≠ a)).length ≤ n :=
        le_trans (List.length_filter_le _ _) (Nat.le_of_succ_le_succ hl)
      by_cases hk : k = a
      · subst hk
        simp [List.mem_cons]
      · simp only [List.mem_cons, hk, false_or]
        rw [ih _ hlen k]
        simp [List.mem_filter, hk]

theorem mem_eraseDupKeepFirst (l : List String) (k : String) :
    k ∈ eraseDupKeepFirst l ↔ k ∈ l :=
  mem_eraseDupKeepFirst_aux l.length l le_rfl k

theorem eraseDupKeepFirst_concat_aux :
    ∀ (n : Nat) (l : List String), l.length ≤ n → ∀ k,
      eraseDupKeepFirst (l ++ [k]) =
        if k ∈ l then eraseDupKeepFirst l else eraseDupKeepFirst l ++ [k] := by
  intro n
  induction n with
  | zero =>
    intro l hl k
    obtain rfl : l = [] := List.length_eq_zero.mp (Nat.le_zero.mp hl)
    rw [List.nil_append, eraseDupKeepFirst_cons, if_neg (List.not_mem_nil k)]
    simp [List.filter_nil, eraseDupKeepFirst_nil]
  | succ n ih =>
    intro l hl k
    match l with
    | [] =>
      rw [List.nil_append, eraseDupKeepFirst_cons, if_neg (List.not_mem_nil k)]
      simp [List.filter_nil, eraseDupKeepFirst_nil]
    | a :: as =>
      rw [List.cons_append, eraseDupKeepFirst_cons, List.filter_append,
        eraseDupKeepFirst_cons]
      have hlen : (as.filter fun b => decide (b ≠ a)).length ≤ n :=
        le_trans (List.length_filter_le _ _) (Nat.le_of_succ_le_succ hl)
      by_cases hk : k = a
      · subst hk
        have hfc : (([k] : List String).filter fun b => decide (b ≠ k)) = [] := by
          simp [List.filter_cons]
        rw [hfc, List.append_nil, if_pos (List.mem_cons_self _ _)]
      · have hfc : (([k] : List String).filter fun b => decide (b ≠ a)) = [k] := by
          simp [List.filter_cons, hk]
        rw [hfc, ih _ hlen k]
        have hmf : (k ∈ as.filter fun b => decide (b ≠ a)) ↔ k ∈ as := by
          simp [List.mem_filter, hk]
        by_cases hka : k ∈ as
        · rw [if_pos (hmf.mpr hka), if_pos (by simp [List.mem_cons, hka])]
        · rw [if_neg (fun hc => hka (hmf.mp hc)),
            if_neg (by simp [List.mem_cons, hk, hka]), List.cons_append]

theorem eraseDupKeepFirst_concat (l : List String) (k : String) :
    eraseDupKeepFirst (l ++ [k]) =
      if k ∈ l then eraseDupKeepFirst l else eraseDupKeepFirst l ++ [k] :=
  eraseDupKeepFirst_concat_aux l.length l le_rfl k

/-- The grouping fold of the composer on bare (key, line) pairs. -/
def groupPairs (ps : List (String × String)) : List (String × List String) :=
  ps.foldl (fun acc p => insertApp acc p.1 p.2) []

theorem groupPairs_concat (ps : List (String × String)) (p : String × String) :
    groupPairs (ps ++ [p]) = insertApp (groupPairs ps) p.1 p.2 := by
  unfold groupPairs
  rw [List.foldl_append]
  rfl

theorem groupPairs_eq (ps : List (String × String)) :
    groupPairs ps =
      (eraseDupKeepFirst (ps.map Prod.fst)).map
        fun d => (d, (ps.filter fun q => decide (q.1 = d)).map Prod.snd) := by
  induction ps using List.reverseRecOn with
  | nil =>
    rw [List.map_nil, eraseDupKeepFirst_nil]
    rfl
  | append_singleton ps p ih =>
    obtain ⟨k, v⟩ := p
    rw [groupPairs_concat, ih, List.map_append, List.map_cons, List.map_nil,
      eraseDupKeepFirst_concat]
    by_cases hk : k ∈ ps.map Prod.fst
    · rw [if_pos hk]
      have hmem : k ∈ eraseDupKeepFirst (ps.map Prod.fst) :=
        (mem_eraseDupKeepFirst _ _).mpr hk
      have hany :
          ((eraseDupKeepFirst (ps.map Prod.fst)).map
              (fun d => (d, (ps.filter fun q => decide (q.1 = d)).map Prod.snd))).any
            (fun p => decide (p.1 = k)) = true := by
        refine List.any_eq_true.mpr ⟨(k, (ps.filter fun q => decide (q.1 = k)).map Prod.snd),
          List.mem_map.mpr ⟨k, hmem, rfl⟩, by simp⟩
      unfold insertApp
      rw [if_pos hany, List.map_map]
      refine List.map_congr_left fun d hd => ?_
      by_cases hdk : d = k
      · subst hdk
        simp only [Function.comp_apply, if_pos rfl]
        rw [List.filter_append, List.map_append]
        simp [List.filter_cons]
      · have hkd : ¬ k = d := fun h => hdk h.symm
        simp only [Function.comp_apply, if_neg hdk]
        rw [List.filter_append, List.map_append]
        have : (([(k, v)] : List (String × String)).filter fun q => decide (q.1 = d)) = [] := by
          simp [List.filter_cons, hkd]
        rw [this, List.map_nil, List.append_nil]
    · rw [if_neg hk]
      have hany :
          ((eraseDupKeepFirst (ps.map Prod.fst)).map
              (fun d => (d, (ps.filter fun q => decide (q.1 = d)).map Prod.snd))).any
            (fun p => decide (p.1 = k)) = false := by
        refine List.any_eq_false.mpr fun p hp => ?_
        obtain ⟨d, hd, rfl⟩ := List.mem_map.mp hp
        have hdk : d ≠ k := fun h => hk (h ▸ (mem_eraseDupKeepFirst _ _).mp hd)
        simp [hdk]
      unfold insertApp
      rw [if_neg (by rw [hany]; exact Bool.false_ne_true), List.map_append,
        List.map_cons, List.map_nil]
      congr 1
      · refine List.map_congr_left fun d hd => ?_
        have hdk : d ≠ k := fun h => hk (h ▸ (mem_eraseDupKeepFirst _ _).mp hd)
        have hkd : ¬ k = d := fun h => hdk h.symm
        rw [List.filter_append]
        have : (([(k, v)] : List (String × String)).filter fun q => decide (q.1 = d)) = [] := by
          simp [List.filter_cons, hkd]
        rw [this, List.append_nil]
      · have hnil : (ps.filter fun q => decide (q.1 = k)) = [] := by
          refine List.filter_eq_nil_iff.mpr fun q hq => ?_
          simp only [decide_eq_true_eq]
          exact fun h => hk (List.mem_map.mpr ⟨q, hq, h⟩)
        rw [List.filter_append, hnil, List.nil_append]
        simp [List.filter_cons]

theorem groupedOf_eq_groupPairs (changes : List Change) (sheet : Grid) :
    groupedOf changes sheet =
      groupPairs ((changes.filter fun ch => decide (¬ ch.r < 3)).map
        fun ch => (chDateKey (sheet.getD 1 []) ch, lineFor sheet ch)) := by
  have main : ∀ (cs : List Change) (acc : List (String × List String)),
      cs.foldl
        (fun acc ch =>
          if ch.r < 3 then acc
          else insertApp acc (chDateKey (sheet.getD 1 []) ch) (lineFor sheet ch)) acc =
      ((cs.filter fun ch => decide (¬ ch.r < 3)).map
        fun ch => (chDateKey (sheet.getD 1 []) ch, lineFor sheet ch)).foldl
        (fun acc p => insertApp acc p.1 p.2) acc := by
    intro cs
    induction cs with
    | nil => intro acc; rfl
    | cons c cs ih =>
      intro acc
      rw [List.foldl_cons, List.filter_cons]
      by_cases hc : c.r < 3
      · rw [if_pos hc, if_neg (by simp [hc])]
        exact ih acc
      · rw [if_neg hc, if_pos (by simp [hc]), List.map_cons, List.foldl_cons]
        exact ih _
  exact main changes []

/-- The grouping object's contents: one entry per resolved date, the
    entries created in first-seen date order, each carrying its changes'
    lines in the original (row-major) change order; header-region changes
    (1-based row < 3) are dropped. -/
theorem groupedOf_characterization (changes : List Change) (sheet : Grid) :
    groupedOf changes sheet =
      (eraseDupKeepFirst ((changes.filter fun ch => decide (¬ ch.r < 3)).map
          (chDateKey (sheet.getD 1 [])))).map
        fun d => (d,
          ((changes.filter fun ch => decide (¬ ch.r < 3)).filter
              fun ch => decide (chDateKey (sheet.getD 1 []) ch = d)).map (lineFor sheet)) := by
  rw [groupedOf_eq_groupPairs, groupPairs_eq, List.map_map]
  have hfil : ∀ d,
      (((changes.filter fun ch => decide (¬ ch.r < 3)).map
          fun ch => (chDateKey (sheet.getD 1 []) ch, lineFor sheet ch)).filter
        fun q => decide (q.1 = d)) =
      ((changes.filter fun ch => decide (¬ ch.r < 3)).filter
          fun ch => decide (chDateKey (sheet.getD 1 []) ch = d)).map
        fun ch => (chDateKey (sheet.getD 1 []) ch, lineFor sheet ch) := by
    intro d
    rw [List.filter_map]
    rfl
  simp only [hfil, List.map_map]
  rfl

/-- Errors an async entry point can throw: the `TypeError` of reading
    `.findIndex` off an undefined header row, and the two resolution
    errors `updateGoogleSheet` constructs. -/
inductive JsError where
  | typeError
  | dateNotFound
  | personNotFound
  | transportError
deriving DecidableEq

/-- The reply text the update handler sends for a thrown error
    (`"❌ Ошибка: " + err.message`); the `TypeError` and transport texts
    are environment supplied and modelled by fixed placeholders. -/
def errMessage : JsError → String
  | .typeError => "TypeError"
  | .dateNotFound => "Дата не найдена"
  | .personNotFound => "Сотрудник не найден"
  | .transportError => "transport error"

/-- One pass of the person-row loop of `sendDailyDuty`: rows with a falsy
    or missing name or duty are skipped, as are `"вых"` and `"-"`; day and
    night substring matches go to their buckets and any other text goes to
    the day bucket with the raw value appended. -/
def dutyStep (colIndex : Nat) (acc : List String × List String) (row : List Val) :
    List String × List String :=
  match row.get? 1 with
  | none => acc
  | some fullName =>
    if falsy fullName then acc
    else
      match row.get? colIndex with
      | none => acc
      | some duty =>
        if falsy duty then acc
        else
          let text := strToLower (jsTrim (jsString duty))
          if text = "вых" || text = "-" then acc
          else
            let tag := (List.lookup (jsString fullName) userMap).getD ""
            let lineBase := firstNameFrom (jsString fullName) ++
              (if tag = "" then "" else " " ++ tag)
            if jsIncludes text "день" then (acc.1 ++ [lineBase], acc.2)
            else if jsIncludes text "ночь" then (acc.1, acc.2 ++ [lineBase])
            else (acc.1 ++ [lineBase ++ " — " ++ jsTrim (jsString duty)], acc.2)

/-- The day and night buckets collected from the person rows (index ≥ 2). -/
def dutyBuckets (sheet : Grid) (colIndex : Nat) : List String × List String :=
  (sheet.drop 2).foldl (dutyStep colIndex) ([], [])

/-- The rendered digest text. -/
def renderDigest (iso : String) (day night : List String) : String :=
  "📅 Дежурство на " ++ iso ++ ":\n\n" ++
    (if day.isEmpty then "" else "☀️ ДЕНЬ:\n" ++ joinSep "\n" day ++ "\n\n") ++
    (if night.isEmpty then "" else "🌙 НОЧЬ:\n" ++ joinSep "\n" night)

/-- `sendDailyDuty` on an already-computed target ISO date: reading
    `sheet[1].findIndex` throws a `TypeError` when the grid has no second
    row; otherwise the result is `none` (no message sent) or the digest
    text for the matched column. -/
def sendDailyDuty (sheet : Grid) (iso : String) : Except JsError (Option String) :=
  match sheet.get? 1 with
  | none => .error .typeError
  | some header =>
    match header.findIdx? fun v => decide (normalizeDate v = some iso) with
    | none => .ok none
    | some colIndex =>
      let b := dutyBuckets sheet colIndex
      if b.1.isEmpty && b.2.isEmpty then .ok none
      else .ok (some (renderDigest iso b.1 b.2))

/-- A person row the digest loop skips: missing/falsy name, missing/falsy
    duty, or a duty that normalizes to the day-off token or a single dash. -/
def rowSkippedB (colIndex : Nat) (row : List Val) : Bool :=
  match row.get? 1 with
  | none => true
  | some fullName =>
    falsy fullName ||
      match row.get? colIndex with
      | none => true
      | some duty =>
        falsy duty ||
          (let text := strToLower (jsTrim (jsString duty))
           text = "вых" || text = "-")
theorem dutyStep_skipped (colIndex : Nat) (acc : List String × List String)
    (row : List Val) (h : rowSkippedB colIndex row = true) :
    dutyStep colIndex acc row = acc := by
  unfold rowSkippedB at h
  match hn : row.get? 1 with
  | none =>
    rw [List.get?_eq_getElem?] at hn
    simp [dutyStep, hn]
  | some fullName =>
    rw [hn] at h
    simp only [Bool.or_eq_true] at h
    rw [List.get?_eq_getElem?] at hn
    match hd : row.get? colIndex with
    | none =>
      rw [List.get?_eq_getElem?] at hd
      simp [dutyStep, hn, hd]
    | some duty =>
      rw [hd] at h
      rw [List.get?_eq_getElem?] at hd
      rcases h with h | h
      · simp [dutyStep, hn, h]
      · simp only [Bool.or_eq_true] at h
        rcases h with h | h
        · simp [dutyStep, hn, hd, h]
        · simp only [decide_eq_true_eq] at h
          simp [dutyStep, hn, hd, h]

theorem dutyBuckets_all_skipped (sheet : Grid) (colIndex : Nat)
    (h : ∀ row ∈ sheet.drop 2, rowSkippedB colIndex row = true) :
    dutyBuckets sheet colIndex = ([], []) := by
  unfold dutyBuckets
  have main : ∀ (rows : List (List Val)), (∀ row ∈ rows, rowSkippedB colIndex row = true) →
      ∀ acc, rows.foldl (dutyStep colIndex) acc = acc := by
    intro rows
    induction rows with
    | nil => intro _ acc; rfl
    | cons row rest ih =>
      intro hall acc
      rw [List.foldl_cons, dutyStep_skipped _ _ _ (hall row (List.mem_cons_self _ _))]
      exact ih (fun r hr => hall r (List.mem_cons_of_mem _ hr)) acc
  exact main _ h ([], [])

/-- C7 counterexample: a grid with a single row has no header row at all,
    so no header column matches any target date, yet the digest throws a
    `TypeError` instead of returning the empty no-op outcome. -/
theorem sendDailyDuty_no_header_throws :
    (∀ v ∈ (([[]] : Grid).getD 1 []), normalizeDate v ≠ some "2024-09-05") ∧
    sendDailyDuty [[]] "2024-09-05" = Except.error JsError.typeError ∧
    (Except.error JsError.typeError : Except JsError (Option String)) ≠ Except.ok none := by
  refine ⟨fun v hv => absurd hv (List.not_mem_nil v), rfl, fun h => Except.noConfusion h⟩

/-- C7 (amended): provided the grid has at least two rows (its header row
    exists), the daily digest returns empty output (a no-op, not an error)
    whenever no header column normalizes to the target date; every person
    row being skipped (empty cell, the day-off token "вых", or a single
    dash) leaves both buckets empty; and whenever both the day and the
    night bucket are empty the digest returns empty output. -/
theorem sendDailyDuty_empty_cases (sheet : Grid) (iso : String)
    (h2 : 2 ≤ sheet.length) :
    ((∀ v ∈ sheet.getD 1 [], normalizeDate v ≠ some iso) →
      sendDailyDuty sheet iso = .ok none) ∧
    (∀ colIndex, (∀ row ∈ sheet.drop 2, rowSkippedB colIndex row = true) →
      dutyBuckets sheet colIndex = ([], [])) ∧
    (∀ colIndex,
      ((sheet.getD 1 []).findIdx? fun v => decide (normalizeDate v = some iso)) =
        some colIndex →
      dutyBuckets sheet colIndex = ([], []) → sendDailyDuty sheet iso = .ok none) := by
  have hget : sheet.get? 1 = some (sheet.getD 1 []) := by
    match sheet, h2 with
    | a :: b :: t, _ => rfl
  refine ⟨?_, fun colIndex h => dutyBuckets_all_skipped sheet colIndex h, ?_⟩
  · intro hnone
    have hfind : ((sheet.getD 1 []).findIdx? fun v => decide (normalizeDate v = some iso)) =
        none :=
      List.findIdx?_eq_none_iff.mpr fun v hv => by
        simpa using hnone v hv
    simp only [sendDailyDuty, hget, hfind]
  · intro colIndex hfind hempty
    simp only [sendDailyDuty, hget, hfind, hempty]
    rfl

/-- Row resolution of `updateGoogleSheet`:
    `sheetData.findIndex(r => r[1] === personName)`; strict equality means
    only a string cell equal to the name matches. -/
def rowScan (sheetData : Grid) (personName : String) : Option Nat :=
  sheetData.findIdx? fun r => decide (r.get? 1 = some (Val.vStr personName))

/-- The resolution phase of `updateGoogleSheet`: reading
    `sheetData[1].findIndex` throws a `TypeError` when there is no second
    row; otherwise a header column must normalize to the requested date
    and a row must carry the exact name in column 1. -/
def updateResolve (sheetData : Grid) (dateStr personName : String) :
    Except JsError (Nat × Nat) :=
  match sheetData.get? 1 with
  | none => .error .typeError
  | some headerRow =>
    match headerRow.findIdx? fun d => decide (normalizeDate d = some dateStr) with
    | none => .error .dateNotFound
    | some colIndex =>
      match rowScan sheetData personName with
      | none => .error .personNotFound
      | some rowIndex => .ok (rowIndex, colIndex)

/-- The A1 reference the write targets:
    `september!` ++ column label ++ 1-based row number. -/
def cellRefOf (rowIndex colIndex : Nat) : String :=
  "september!" ++ numToCol colIndex ++ toString (rowIndex + 1)

/-- One run of `notifyGoogleChanges` given the cached snapshot and the
    freshly read grid: the snapshot writes performed and the notification
    text sent, if any.  An absent cache is initialized without notifying;
    a non-empty change list is notified and the snapshot replaced. -/
def notifyGoogleChanges (cache : Option Grid) (current : Grid) :
    List Grid × Option String :=
  match cache with
  | none => ([current], none)
  | some cached =>
    if (findChanges cached current).isEmpty then ([], none)
    else ([current], some (buildChangeMessage (findChanges cached current) current))

/-- The `/^\d{4}-\d{2}-\d{2}$/` test of the handler. -/
def dateRe (s : String) : Bool :=
  match s.toList with
  | [y1, y2, y3, y4, s1, m1, m2, s2, d1, d2] =>
    y1.isDigit && y2.isDigit && y3.isDigit && y4.isDigit && s1 = '-' &&
      m1.isDigit && m2.isDigit && s2 = '-' && d1.isDigit && d2.isDigit
  | _ => false

/-- Observable outcome of one inbound message: replies sent back to the
    sender, sheet cell writes, diff cycles run (`notifyGoogleChanges`
    calls), and snapshot-file writes. -/
structure HResult where
  replies : List String
  writes : List (String × String)
  notifyRuns : Nat
  cacheWrites : List Grid
deriving DecidableEq

/-- The message handler after the allow-list gate and the
    `text.trim().split(/\s+/)` tokenization: usage reply on fewer than
    three tokens, date-format reply on a bad first token, then
    resolution, write, confirmation and one diff cycle — any thrown error
    is caught and reported with no diff cycle and no snapshot write.
    `grid1` is the grid read by `updateGoogleSheet`, `grid2` the one read
    by the follow-up `notifyGoogleChanges`; `applyFails` models the sheet
    write transport throwing. -/
def handleParts (parts : List String) (grid1 grid2 : Grid) (cache : Option Grid)
    (applyFails : Bool) : HResult :=
  if parts.length < 3 then
    ⟨["Пока что Макс не обучил меня такому функционалу 😭💔"], [], 0, []⟩
  else if dateRe (parts.headD "") then
    match updateResolve grid1 (parts.headD "") (joinSep " " ((parts.drop 1).dropLast)) with
    | .error e => ⟨["❌ Ошибка: " ++ errMessage e], [], 0, []⟩
    | .ok (rowIndex, colIndex) =>
      if applyFails then ⟨["❌ Ошибка: " ++ errMessage .transportError], [], 0, []⟩
      else
        ⟨["✅ Запись обновлена"], [(cellRefOf rowIndex colIndex, (parts.getLast?).getD "")],
          1, (notifyGoogleChanges cache grid2).1⟩
  else ⟨["❌ Неверный формат даты. Используйте YYYY-MM-DD"], [], 0, []⟩

/-- The full `bot.on("message")` handler: silence for senders off the
    allow-list, usage reply when `msg.text` is absent, else tokenize and
    run `handleParts`. -/
def processMessage (allowed : List Int) (fromId : Int) (text : Option String)
    (grid1 grid2 : Grid) (cache : Option Grid) (applyFails : Bool) : HResult :=
  if fromId ∈ allowed then
    match text with
    | none => ⟨["Пока что Макс не обучил меня такому функционалу 😭💔"], [], 0, []⟩
    | some t => handleParts (jsSplitWs (jsTrim t)) grid1 grid2 cache applyFails
  else ⟨[], [], 0, []⟩

/-- C4 counterexample: on the empty grid there is no date-header row, and
    both the daily digest and the update-command resolution throw a
    `TypeError` (reading `.findIndex` of undefined) instead of degrading
    to the date-not-found or no-entries outcome. -/
theorem short_grid_throws :
    sendDailyDuty [] "2024-09-05" = Except.error JsError.typeError ∧
    updateResolve [] "2024-09-05" "Иванов Иван Иванович" =
      Except.error JsError.typeError :=
  ⟨rfl, rfl⟩

/-- C4 (amended): for every grid with at least two rows — ragged rows
    included — daily-digest generation and update-command resolution never
    throw: the digest always reaches an ok outcome (possibly empty) and
    resolution fails only with the date-not-found or person-not-found
    errors; a grid with fewer than two rows instead makes both throw the
    header `TypeError` (surfaced as a generic error reply on the update
    path). -/
theorem no_throw_with_header (sheet : Grid) (iso dateStr name : String)
    (h2 : 2 ≤ sheet.length) :
    (∃ r, sendDailyDuty sheet iso = .ok r) ∧
    updateResolve sheet dateStr name ≠ .error .typeError := by
  have hget : sheet.get? 1 = some (sheet.getD 1 []) := by
    match sheet, h2 with
    | a :: b :: t, _ => rfl
  constructor
  · simp only [sendDailyDuty, hget]
    match (sheet.getD 1 []).findIdx? fun v => decide (normalizeDate v = some iso) with
    | none => exact ⟨none, rfl⟩
    | some colIndex =>
      by_cases hb : ((dutyBuckets sheet colIndex).1.isEmpty &&
          (dutyBuckets sheet colIndex).2.isEmpty) = true
      · refine ⟨none, ?_⟩
        simp only [hb]
        rfl
      · refine ⟨some (renderDigest iso (dutyBuckets sheet colIndex).1
          (dutyBuckets sheet colIndex).2), ?_⟩
        simp only [Bool.not_eq_true] at hb
        simp only [hb]
        rfl
  · simp only [updateResolve, hget]
    match (sheet.getD 1 []).findIdx? fun d => decide (normalizeDate d = some dateStr) with
    | none => simp
    | some colIndex =>
      match rowScan sheet name with
      | none => simp
      | some rowIndex => simp

/-- Witness for the amended C4 at a concrete two-row ragged grid. -/
theorem no_throw_with_header_witness :
    (∃ r, sendDailyDuty [[], []] "2024-09-05" = .ok r) ∧
    updateResolve [[], []] "2024-09-05" "Иванов Иван Иванович" ≠
      Except.error JsError.typeError :=
  no_throw_with_header [[], []] "2024-09-05" "2024-09-05" "Иванов Иван Иванович"
    (by decide)

/-- C10: the update row scan runs over all grid rows from index 0 — the
    reserved title row and the date-header row included — and returns the
    least index whose column-1 cell strictly equals the requested full
    name; hence the earliest of duplicate rows always receives the write,
    a header-region row can be selected, and the row a successful update
    resolves to is exactly this scan result. -/
theorem rowScan_first_match :
    (∀ (sheet : Grid) (name : String) (i : Nat),
      rowScan sheet name = some i ↔
        ∃ h : i < sheet.length,
          sheet[i].get? 1 = some (Val.vStr name) ∧
          ∀ j (hj : j < i), sheet[j].get? 1 ≠ some (Val.vStr name)) ∧
    (∀ (sheet : Grid) (dateStr name : String) (ri ci : Nat),
      updateResolve sheet dateStr name = .ok (ri, ci) → rowScan sheet name = some ri) := by
  constructor
  · intro sheet name i
    unfold rowScan
    rw [List.findIdx?_eq_some_iff_getElem]
    constructor
    · rintro ⟨h, hp, hj⟩
      refine ⟨h, by simpa using hp, fun j hji => by simpa using hj j hji⟩
    · rintro ⟨h, hp, hj⟩
      refine ⟨h, by simpa using hp, fun j hji => by simpa using hj j hji⟩
  · intro sheet dateStr name ri ci h
    unfold updateResolve at h
    split at h
    · exact Except.noConfusion h
    · split at h
      · exact Except.noConfusion h
      · split at h
        · exact Except.noConfusion h
        · next rowIndex heq =>
          simp only [Except.ok.injEq, Prod.mk.injEq] at h
          obtain ⟨rfl, rfl⟩ := h
          exact heq

/-- C5 counterexample: the number 0 is falsy, so `normalizeDate(0)`
    returns the sentinel instead of the epoch-rule date 1899-12-30 that
    the claim promises for every number. -/
theorem normalizeDate_zero_sentinel :
    normalizeDate (.vNum 0) ≠ some (isoFromMs (epochBaseMs + 0 * 86400000)) ∧
    isoFromMs (epochBaseMs + 0 * 86400000) = "1899-12-30" := by
  refine ⟨fun h => Option.noConfusion h, by decide⟩

/-- C5 (amended): `normalizeDate` maps any non-empty string to its first
    ten characters, any non-zero number n to the calendar date n days
    after 1899-12-30 UTC, and the empty/falsy inputs — the empty string
    and the number 0 — to the `null` sentinel, which never compares equal
    to any target date string. -/
theorem normalizeDate_cases (s : String) (n : Int) (target : String)
    (hs : s ≠ "") (hn : n ≠ 0) :
    normalizeDate (.vStr s) = some (takeTen s) ∧
    normalizeDate (.vNum n) = some (isoOfDays (n - 25569)) ∧
    normalizeDate (.vStr "") = none ∧
    normalizeDate (.vNum 0) = none ∧
    normalizeDate (.vStr "") ≠ some target := by
  refine ⟨?_, ?_, rfl, rfl, fun h => Option.noConfusion h⟩
  · unfold normalizeDate
    rw [if_neg (by simp [falsy, hs])]
  · unfold normalizeDate
    rw [if_neg (by simp [falsy, hn])]
    show some (isoFromMs (epochBaseMs + n * 86400000)) = some (isoOfDays (n - 25569))
    have hrw : epochBaseMs + n * 86400000 = (n - 25569) * 86400000 := by
      unfold epochBaseMs
      ring
    unfold isoFromMs
    rw [hrw, Int.mul_fdiv_cancel _ (by norm_num)]

/-- Witness for the amended C5 at the spec's test vectors: an ISO
    timestamp string and the serial number 45539, which lands in
    September 2024. -/
theorem normalizeDate_cases_witness :
    normalizeDate (.vStr "2024-09-05T10:00:00") = some "2024-09-05" ∧
    normalizeDate (.vNum 45539) = some "2024-09-04" := by
  have h := normalizeDate_cases "2024-09-05T10:00:00" 45539 "2024-09-05"
    (by decide) (by decide)
  exact ⟨h.1.trans (by decide), h.2.1.trans (by decide)⟩

/-- C3: a message whose sender is not on the allow-list produces no
    replies, no sheet writes, no diff cycle and no snapshot writes,
    whatever the message body. -/
theorem unauthorized_ignored (allowed : List Int) (fromId : Int) (text : Option String)
    (grid1 grid2 : Grid) (cache : Option Grid) (applyFails : Bool)
    (h : fromId ∉ allowed) :
    processMessage allowed fromId text grid1 grid2 cache applyFails = ⟨[], [], 0, []⟩ := by
  unfold processMessage
  rw [if_neg h]

/-- Witness for C3: an unlisted sender with a well-formed command body. -/
theorem unauthorized_ignored_witness :
    processMessage [42] 7 (some "2024-09-05 Иванов Иван Иванович ночь")
      [[], [Val.vStr "", Val.vStr "2024-09-05"]] [] none false = ⟨[], [], 0, []⟩ :=
  unauthorized_ignored [42] 7 (some "2024-09-05 Иванов Иван Иванович ночь")
    [[], [Val.vStr "", Val.vStr "2024-09-05"]] [] none false (by decide)

theorem processMessage_eval (allowed : List Int) (fromId : Int) (t : String)
    (grid1 grid2 : Grid) (cache : Option Grid) (applyFails : Bool)
    (p0 plast : String) (pmid : List String)
    (hallow : fromId ∈ allowed)
    (hsplit : jsSplitWs (jsTrim t) = (p0 :: pmid) ++ [plast])
    (hmid : pmid ≠ [])
    (hdate : dateRe p0 = true) :
    processMessage allowed fromId (some t) grid1 grid2 cache applyFails =
      match updateResolve grid1 p0 (joinSep " " pmid) with
      | .error e => ⟨["❌ Ошибка: " ++ errMessage e], [], 0, []⟩
      | .ok (rowIndex, colIndex) =>
        if applyFails then ⟨["❌ Ошибка: " ++ errMessage .transportError], [], 0, []⟩
        else
          ⟨["✅ Запись обновлена"], [(cellRefOf rowIndex colIndex, plast)], 1,
            (notifyGoogleChanges cache grid2).1⟩ := by
  unfold processMessage
  rw [if_pos hallow]
  show handleParts (jsSplitWs (jsTrim t)) grid1 grid2 cache applyFails = _
  rw [hsplit]
  unfold handleParts
  have hlen : ¬ (((p0 :: pmid) ++ [plast]).length < 3) := by
    have hpos : 0 < pmid.length := List.length_pos.mpr hmid
    simp only [List.length_append, List.length_cons]
    omega
  rw [if_neg hlen]
  simp only [List.getLast?_concat, Option.getD_some]
  simp only [List.cons_append, List.headD_cons, List.drop_succ_cons, List.drop_zero,
    List.dropLast_concat]
  rw [if_pos hdate]

/-- C2: under the allow-list gate, with a well-formed three-plus-token
    command whose date matches a header column: when some row's column-1
    value equals the full name and the write goes through, the handler
    replies with the confirmation and runs exactly one diff cycle (one
    `notifyGoogleChanges` call); when no row carries the name it replies
    with the person-not-found error, runs no diff cycle and performs no
    snapshot write; on any resolution failure there is no diff cycle and
    no snapshot write; and when resolution succeeds but the apply step
    (the sheet write) throws, the handler replies with the caught error
    and again runs no diff cycle and performs no snapshot write. -/
theorem update_command_flow (allowed : List Int) (fromId : Int) (t : String)
    (grid1 grid2 : Grid) (cache : Option Grid)
    (p0 plast : String) (pmid : List String)
    (hallow : fromId ∈ allowed)
    (hsplit : jsSplitWs (jsTrim t) = (p0 :: pmid) ++ [plast])
    (hmid : pmid ≠ [])
    (hdate : dateRe p0 = true) :
    ((2 ≤ grid1.length) →
      (∃ v ∈ grid1.getD 1 [], normalizeDate v = some p0) →
      (∃ row ∈ grid1, row.get? 1 = some (Val.vStr (joinSep " " pmid))) →
      ∃ ri ci,
        processMessage allowed fromId (some t) grid1 grid2 cache false =
          ⟨["✅ Запись обновлена"], [(cellRefOf ri ci, plast)], 1,
            (notifyGoogleChanges cache grid2).1⟩) ∧
    ((2 ≤ grid1.length) →
      (∃ v ∈ grid1.getD 1 [], normalizeDate v = some p0) →
      (∀ row ∈ grid1, row.get? 1 ≠ some (Val.vStr (joinSep " " pmid))) →
      ∀ applyFails,
        processMessage allowed fromId (some t) grid1 grid2 cache applyFails =
          ⟨["❌ Ошибка: Сотрудник не найден"], [], 0, []⟩) ∧
    (∀ e, updateResolve grid1 p0 (joinSep " " pmid) = .error e →
      ∀ applyFails,
        processMessage allowed fromId (some t) grid1 grid2 cache applyFails =
          ⟨["❌ Ошибка: " ++ errMessage e], [], 0, []⟩) ∧
    (∀ ri ci, updateResolve grid1 p0 (joinSep " " pmid) = .ok (ri, ci) →
      processMessage allowed fromId (some t) grid1 grid2 cache true =
        ⟨["❌ Ошибка: " ++ errMessage .transportError], [], 0, []⟩) := by
  refine ⟨?_, ?_, ?_, ?_⟩
  · intro h2 hcol hrow
    have hget : grid1.get? 1 = some (grid1.getD 1 []) := by
      match grid1, h2 with
      | a :: b :: tl, _ => rfl
    obtain ⟨ci, hci⟩ : ∃ ci,
        ((grid1.getD 1 []).findIdx? fun d => decide (normalizeDate d = some p0)) =
          some ci := by
      cases hfi : (grid1.getD 1 []).findIdx? fun d => decide (normalizeDate d = some p0) with
      | some ci => exact ⟨ci, rfl⟩
      | none =>
        obtain ⟨v, hv, hveq⟩ := hcol
        have := List.findIdx?_eq_none_iff.mp hfi v hv
        simp [hveq] at this
    obtain ⟨ri, hri⟩ : ∃ ri, rowScan grid1 (joinSep " " pmid) = some ri := by
      cases hfi : rowScan grid1 (joinSep " " pmid) with
      | some ri => exact ⟨ri, rfl⟩
      | none =>
        obtain ⟨row, hr, hreq⟩ := hrow
        have := List.findIdx?_eq_none_iff.mp hfi row hr
        simp only [decide_eq_false_iff_not] at this
        exact absurd hreq this
    refine ⟨ri, ci, ?_⟩
    rw [processMessage_eval allowed fromId t grid1 grid2 cache false p0 plast pmid
      hallow hsplit hmid hdate]
    have hres : updateResolve grid1 p0 (joinSep " " pmid) = .ok (ri, ci) := by
      simp only [updateResolve, hget, hci, hri]
    rw [hres]
    rfl
  · intro h2 hcol hnone applyFails
    have hget : grid1.get? 1 = some (grid1.getD 1 []) := by
      match grid1, h2 with
      | a :: b :: tl, _ => rfl
    obtain ⟨ci, hci⟩ : ∃ ci,
        ((grid1.getD 1 []).findIdx? fun d => decide (normalizeDate d = some p0)) =
          some ci := by
      cases hfi : (grid1.getD 1 []).findIdx? fun d => decide (normalizeDate d = some p0) with
      | some ci => exact ⟨ci, rfl⟩
      | none =>
        obtain ⟨v, hv, hveq⟩ := hcol
        have := List.findIdx?_eq_none_iff.mp hfi v hv
        simp [hveq] at this
    have hscan : rowScan grid1 (joinSep " " pmid) = none :=
      List.findIdx?_eq_none_iff.mpr fun row hr => by
        simpa using hnone row hr
    have hres : updateResolve grid1 p0 (joinSep " " pmid) = .error .personNotFound := by
      simp only [updateResolve, hget, hci, hscan]
    rw [processMessage_eval allowed fromId t grid1 grid2 cache applyFails p0 plast pmid
      hallow hsplit hmid hdate, hres]
    rfl
  · intro e hres applyFails
    rw [processMessage_eval allowed fromId t grid1 grid2 cache applyFails p0 plast pmid
      hallow hsplit hmid hdate, hres]
  · intro ri ci hres
    rw [processMessage_eval allowed fromId t grid1 grid2 cache true p0 plast pmid
      hallow hsplit hmid hdate, hres]
    rfl

/-- Witness for C2: the spec's example command against a grid that
    carries the name (success with one diff cycle; failure of the apply
    step instead yields the caught-error reply with no diff cycle and no
    snapshot write) and against a grid that does not carry the name
    (person-not-found reply, no diff cycle, no snapshot write even when
    the apply step would fail). -/
theorem update_command_flow_witness :
    (∃ ri ci, processMessage [42] 42 (some "2024-09-05 Иванов Иван Иванович ночь")
        [[], [Val.vStr "", Val.vStr "", Val.vStr "2024-09-05"],
          [Val.vStr "", Val.vStr "Иванов Иван Иванович", Val.vStr "день"]] [] none false =
        ⟨["✅ Запись обновлена"], [(cellRefOf ri ci, "ночь")], 1,
          (notifyGoogleChanges none []).1⟩) ∧
    processMessage [42] 42 (some "2024-09-05 Иванов Иван Иванович ночь")
        [[], [Val.vStr "", Val.vStr "", Val.vStr "2024-09-05"],
          [Val.vStr "", Val.vStr "Иванов Иван Иванович", Val.vStr "день"]] [] none true =
        ⟨["❌ Ошибка: transport error"], [], 0, []⟩ ∧
    processMessage [42] 42 (some "2024-09-05 Иванов Иван Иванович ночь")
        [[], [Val.vStr "", Val.vStr "", Val.vStr "2024-09-05"]] [] none true =
        ⟨["❌ Ошибка: Сотрудник не найден"], [], 0, []⟩ := by
  have h1 := update_command_flow [42] 42 "2024-09-05 Иванов Иван Иванович ночь"
    [[], [Val.vStr "", Val.vStr "", Val.vStr "2024-09-05"],
      [Val.vStr "", Val.vStr "Иванов Иван Иванович", Val.vStr "день"]] [] none
    "2024-09-05" "ночь" ["Иванов", "Иван", "Иванович"]
    (by decide) (by decide) (by decide) (by decide)
  have h2 := update_command_flow [42] 42 "2024-09-05 Иванов Иван Иванович ночь"
    [[], [Val.vStr "", Val.vStr "", Val.vStr "2024-09-05"]] [] none
    "2024-09-05" "ночь" ["Иванов", "Иван", "Иванович"]
    (by decide) (by decide) (by decide) (by decide)
  refine ⟨h1.1 (by decide) ⟨Val.vStr "2024-09-05", by decide, by decide⟩
      ⟨[Val.vStr "", Val.vStr "Иванов Иван Иванович", Val.vStr "день"], by decide, by decide⟩,
    h1.2.2.2 2 2 rfl,
    h2.2.1 (by decide) ⟨Val.vStr "2024-09-05", by decide, by decide⟩ (by decide) true⟩

/-- Witness for the amended C7: a header with no matching column, and a
    grid whose only duty entry for the matched column is the day-off
    token. -/
theorem sendDailyDuty_empty_cases_witness :
    sendDailyDuty [[], [Val.vStr "", Val.vStr "2024-01-01"]] "2024-09-09" =
      Except.ok none ∧
    dutyBuckets [[], [Val.vStr "", Val.vStr "", Val.vStr "2024-09-05"],
      [Val.vStr "", Val.vStr "Иванов Иван Иванович", Val.vStr "вых"]] 2 = ([], []) ∧
    sendDailyDuty [[], [Val.vStr "", Val.vStr "", Val.vStr "2024-09-05"],
      [Val.vStr "", Val.vStr "Иванов Иван Иванович", Val.vStr "вых"]] "2024-09-05" =
      Except.ok none := by
  have h1 := sendDailyDuty_empty_cases [[], [Val.vStr "", Val.vStr "2024-01-01"]]
    "2024-09-09" (by decide)
  have h2 := sendDailyDuty_empty_cases
    [[], [Val.vStr "", Val.vStr "", Val.vStr "2024-09-05"],
      [Val.vStr "", Val.vStr "Иванов Иван Иванович", Val.vStr "вых"]]
    "2024-09-05" (by decide)
  exact ⟨h1.1 (by decide), h2.2.1 2 (by decide),
    h2.2.2 2 (by decide) (h2.2.1 2 (by decide))⟩

/-- Witness for C10: a successful update against a grid whose requested
    name sits in the reserved title row (index 0) resolves to that header
    row, the earliest match. -/
theorem rowScan_first_match_witness :
    rowScan [[Val.vStr "", Val.vStr "Иванов Иван Иванович"],
      [Val.vStr "", Val.vStr "2024-09-05"]] "Иванов Иван Иванович" = some 0 :=
  rowScan_first_match.2
    [[Val.vStr "", Val.vStr "Иванов Иван Иванович"], [Val.vStr "", Val.vStr "2024-09-05"]]
    "2024-09-05" "Иванов Иван Иванович" 0 1 rfl

theorem insertByVal_fst (p : String × List String) (l : List (String × List String)) :
    (insertByVal p l).map Prod.fst = insertKeyByVal p.1 (l.map Prod.fst) := by
  induction l with
  | nil => rfl
  | cons q qs ih =>
    simp only [List.map_cons, insertByVal, insertKeyByVal]
    by_cases hlt : keyNumVal p.1 < keyNumVal q.1
    · simp [hlt]
    · simp [hlt, ih]

theorem sortByVal_fst (l : List (String × List String)) :
    (sortByVal l).map Prod.fst = sortKeysByVal (l.map Prod.fst) := by
  induction l with
  | nil => rfl
  | cons p ps ih =>
    simp only [List.map_cons, sortByVal, sortKeysByVal, insertByVal_fst, ih]

/-- C8 counterexample: one change resolves to "2024-09-05" (seen first)
    and a second to "45539" — the ten-character cut of a digit-string
    header cell.  The grouping object creates the keys in first-seen
    order, but "45539" is a canonical array-index key, so `Object.keys`
    enumerates it first and the rendered block order is not first-seen
    order. -/
theorem buildChangeMessage_numeric_key_reorder :
    ((groupedOf
        [⟨3, 2, Val.vStr "a", Val.vStr "b"⟩, ⟨3, 3, Val.vStr "c", Val.vStr "d"⟩]
        [[], [Val.vStr "", Val.vStr "2024-09-05", Val.vStr "45539"]]).map Prod.fst =
      ["2024-09-05", "45539"]) ∧
    ((jsEnumOrder (groupedOf
        [⟨3, 2, Val.vStr "a", Val.vStr "b"⟩, ⟨3, 3, Val.vStr "c", Val.vStr "d"⟩]
        [[], [Val.vStr "", Val.vStr "2024-09-05", Val.vStr "45539"]])).map Prod.fst =
      ["45539", "2024-09-05"]) := by
  decide

/-- C8 (amended): the composer drops every change with 1-based row
    index < 3; the remaining changes produce exactly one grouping entry
    per resolved date, created in first-seen date order and carrying that
    date's lines in the original (row-major) change order — two changes
    resolving to the same date yield one block with their two lines in
    order.  The rendered block order, however, follows the `Object.keys`
    enumeration: resolved dates that are canonical array-index strings
    come first in ascending numeric order, and only the remaining dates
    appear in first-seen order. -/
theorem buildChangeMessage_block_order (changes : List Change) (sheet : Grid) :
    groupedOf changes sheet =
      (eraseDupKeepFirst ((changes.filter fun ch => decide (¬ ch.r < 3)).map
          (chDateKey (sheet.getD 1 [])))).map
        (fun d => (d,
          ((changes.filter fun ch => decide (¬ ch.r < 3)).filter
              fun ch => decide (chDateKey (sheet.getD 1 []) ch = d)).map (lineFor sheet))) ∧
    (jsEnumOrder (groupedOf changes sheet)).map Prod.fst =
      sortKeysByVal ((eraseDupKeepFirst ((changes.filter fun ch => decide (¬ ch.r < 3)).map
          (chDateKey (sheet.getD 1 [])))).filter isArrayIndexKey) ++
        (eraseDupKeepFirst ((changes.filter fun ch => decide (¬ ch.r < 3)).map
          (chDateKey (sheet.getD 1 [])))).filter (fun d => !(isArrayIndexKey d)) := by
  refine ⟨groupedOf_characterization changes sheet, ?_⟩
  rw [groupedOf_characterization changes sheet]
  unfold jsEnumOrder
  rw [List.map_append, sortByVal_fst, List.filter_map, List.filter_map,
    List.map_map, List.map_map]
  have hid : ∀ (ks : List String) (F : String → List String),
      ks.map (Prod.fst ∘ fun d => (d, F d)) = ks := by
    intro ks F
    induction ks with
    | nil => rfl
    | cons k ks ih => simp [ih, Function.comp]
  rw [hid, hid]
  rfl
